import Mathlib

/-!
Verification development for the wayfire animation/easing core
(`src/util/duration.cpp`-style source).  The C++ source is shallowly
embedded: `double` is modelled by `ℚ` (exact arithmetic), `std::chrono`
time points by `Int` millisecond timestamps, and the `std::istringstream`
based scanning by explicit character-list functions that follow the
C++11 `num_get`/`operator>>` semantics (a failed numeric conversion
stores `0`; a sentry failure at end-of-input leaves the variable
untouched; once the stream has failed every later extraction is a
no-op).
-/

set_option maxHeartbeats 1000000

/-! ## Character and digit infrastructure -/

/-- Whitespace recognized by the stream model (`std::isspace` on the
inputs that occur in this development). -/
def isWsChar (c : Char) : Bool :=
  c = ' ' || c = '\t' || c = '\n' || c = '\r'

/-- Numeric value of a decimal digit character. -/
def digitVal (c : Char) : Nat := c.toNat - 48

/-- Value of a list of decimal digit characters, most significant first. -/
def digitsVal (cs : List Char) : Nat :=
  cs.foldl (fun a c => a * 10 + digitVal c) 0

/-- Decimal digit character for `n < 10`. -/
def digitChar10 (n : Nat) : Char := Char.ofNat (48 + n)

/-- Fuelled decimal printer for naturals (mirrors `std::to_string`). -/
def natCharsAux : Nat → Nat → List Char
  | 0, _ => []
  | fuel + 1, n =>
    if n < 10 then [digitChar10 n]
    else natCharsAux fuel (n / 10) ++ [digitChar10 (n % 10)]

/-- Decimal digits of a natural number, no leading zeros (except "0"). -/
def natChars (n : Nat) : List Char := natCharsAux (n + 1) n

/-- Exactly `k` decimal digits of `n % 10^k`, zero padded. -/
def natCharsPad : Nat → Nat → List Char
  | 0, _ => []
  | k + 1, n => natCharsPad k (n / 10) ++ [digitChar10 (n % 10)]

/-- Decimal printing of an integer (models `std::to_string(int)`). -/
def intChars (z : Int) : List Char :=
  (if z < 0 then ['-'] else []) ++ natChars z.natAbs

/-- C++ `double`-to-`int` conversion: truncation toward zero. -/
def truncQ (q : ℚ) : Int := if q < 0 then ⌈q⌉ else ⌊q⌋

/-! ## Stream scanning model

`readDouble` models `std::istream >> double` (a C++11 `num_get` based
extraction), `readToken` models `std::istream >> std::string`, and
`parseIntChars` models the whole-string integer parse used by
`wf::option_type::from_string<int>`. -/

/-- Result of one `>> double` extraction.
  * `ok q rest` — the extraction succeeded with value `q`.
  * `fail0 rest` — conversion failure: C++11 stores `0` in the target
    and sets `failbit`.
  * `failEof` — the sentry hit end-of-input while skipping whitespace:
    `failbit` is set and the target variable is left untouched. -/
inductive DRead where
  | ok (q : ℚ) (rest : List Char)
  | fail0 (rest : List Char)
  | failEof
deriving DecidableEq

/-- Optional leading sign of a numeral. -/
def splitSign (cs : List Char) : Bool × List Char :=
  match cs with
  | [] => (false, [])
  | c :: rest =>
    if c = '-' then (true, rest)
    else if c = '+' then (false, rest)
    else (false, cs)

/-- Mantissa-and-exponent scanning, after the sign has been removed.
Follows the `num_get` grammar on the inputs in scope: digits, an
optional fraction introduced by `'.'`, and an optional exponent which
must carry at least one digit (otherwise the whole conversion fails). -/
def numAfterSign (cs : List Char) : Option (ℚ × List Char) :=
  let ip := cs.takeWhile Char.isDigit
  let r1 := cs.dropWhile Char.isDigit
  let fr :=
    match r1 with
    | c :: t =>
      if c = '.' then (t.takeWhile Char.isDigit, t.dropWhile Char.isDigit)
      else (([] : List Char), r1)
    | [] => (([] : List Char), r1)
  let fp := fr.1
  let r2 := fr.2
  if ip = [] ∧ fp = [] then none
  else
    let mant : ℚ := (digitsVal ip : ℚ) + (digitsVal fp : ℚ) / (10 : ℚ) ^ fp.length
    match r2 with
    | c :: t =>
      if c = 'e' ∨ c = 'E' then
        let s := splitSign t
        let ed := s.2.takeWhile Char.isDigit
        let r3 := s.2.dropWhile Char.isDigit
        if ed = [] then none
        else some (if s.1 then mant / (10 : ℚ) ^ digitsVal ed
                   else mant * (10 : ℚ) ^ digitsVal ed, r3)
      else some (mant, r2)
    | [] => some (mant, [])

/-- One `stream >> (double&)` extraction. -/
def readDouble (cs : List Char) : DRead :=
  let cs' := cs.dropWhile isWsChar
  match cs' with
  | [] => .failEof
  | _ :: _ =>
    let s := splitSign cs'
    match numAfterSign s.2 with
    | some (q, rest) => .ok (if s.1 then -q else q) rest
    | none => .fail0 cs'

/-- One `stream >> (std::string&)` extraction: skip whitespace, then
take the maximal non-whitespace run; fails only at end-of-input. -/
def readToken (cs : List Char) : Option (List Char × List Char) :=
  let cs' := cs.dropWhile isWsChar
  match cs' with
  | [] => none
  | _ :: _ => some (cs'.takeWhile (fun c => !isWsChar c),
                    cs'.dropWhile (fun c => !isWsChar c))

/-- Modelled from the spec: `wf::option_type::from_string<int>` is not
part of the given sources; per the spec it succeeds exactly when the
entire text is a bare integer ("Format 1: N"). -/
def parseIntChars (cs : List Char) : Option Int :=
  match cs with
  | [] => none
  | c :: rest =>
    if c = '-' then
      if rest ≠ [] ∧ rest.all Char.isDigit then some (-(digitsVal rest : Int))
      else none
    else if c = '+' then
      if rest ≠ [] ∧ rest.all Char.isDigit then some ((digitsVal rest : Int))
      else none
    else if cs.all Char.isDigit then some ((digitsVal cs : Int))
    else none

/-- Rounding to six decimal places (the scale used by
`std::to_string(double)`), ties away from zero. -/
def round6 (q : ℚ) : Int :=
  if 0 ≤ q then ⌊q * 1000000 + 1 / 2⌋ else -⌊-q * 1000000 + 1 / 2⌋

/-- Modelled from the spec: `wf::option_type::to_string<double>` is not
part of the given sources; per the spec it is the implementation's
standard numeric-to-string formatting, i.e. `std::to_string`, which
prints a fixed six digits after the decimal point. -/
def fmt6 (q : ℚ) : List Char :=
  let z := round6 q
  (if z < 0 then ['-'] else []) ++
    natChars (z.natAbs / 1000000) ++ '.' :: natCharsPad 6 (z.natAbs % 1000000)

/-- The rational value denoted by the six-decimal print of `q`. -/
def r6rat (q : ℚ) : ℚ := (round6 q : ℚ) / 1000000

/-! ## Animation description codec (from `src/unnamed/part_000`) -/

/-- Which easing the parser bound: either an entry of the named easing
registry or a cubic-bezier closure built by `get_cubic_bezier`. -/
inductive easing_kind where
  | named (name : List Char)
  | bezier (x1 y1 x2 y2 : ℚ)
deriving DecidableEq

/-- `wf::animation_description_t`.  The `easing` member of the C++
struct is a `std::function` closure; it is modelled by the symbolic
`easing_kind` (equality and the codec never evaluate it). -/
structure animation_description_t where
  length_ms : Int
  easing_name : List Char
  easing : easing_kind
deriving DecidableEq

/-- Keys of `wf::animation::smoothing::easing_map`. -/
def registryNames : List (List Char) :=
  ["linear".data, "circle".data, "sigmoid".data, "easeOutElastic".data]

/-- The canonical easing name rebuilt by the parser for cubic beziers:
`"cubic-bezier " + to_string(x1) + " " + ...`. -/
def canonName (x1 y1 x2 y2 : ℚ) : List Char :=
  "cubic-bezier ".data ++ fmt6 x1 ++ " ".data ++ fmt6 y1 ++ " ".data ++
    fmt6 x2 ++ " ".data ++ fmt6 y2

/-- `double x1 = 0, y1 = 0, x2 = 1, y2 = 1; stream >> x1 >> y1 >> x2 >> y2;`
under C++11 semantics: a conversion failure stores `0` into the
variable being extracted (so a garbage third token leaves `x2 = 0`,
not its initializer `1`), a sentry failure at end-of-input leaves the
variable's initializer, and after the first failure the remaining
extractions are no-ops.  The second component is the surviving stream:
`some rest` if all four reads succeeded, `none` if the stream failed. -/
def read4 (cs : List Char) : (ℚ × ℚ × ℚ × ℚ) × Option (List Char) :=
  match readDouble cs with
  | .failEof => ((0, 0, 1, 1), none)
  | .fail0 _ => ((0, 0, 1, 1), none)
  | .ok v1 r1 =>
    match readDouble r1 with
    | .failEof => ((v1, 0, 1, 1), none)
    | .fail0 _ => ((v1, 0, 1, 1), none)
    | .ok v2 r2 =>
      match readDouble r2 with
      | .failEof => ((v1, v2, 1, 1), none)
      | .fail0 _ => ((v1, v2, 0, 1), none)
      | .ok v3 r3 =>
        match readDouble r3 with
        | .failEof => ((v1, v2, v3, 1), none)
        | .fail0 _ => ((v1, v2, v3, 0), none)
        | .ok v4 r4 => ((v1, v2, v3, v4), some r4)

/-- Tail of `from_string<animation_description_t>`: the trailing-data
check (`stream >> tmp` succeeding means garbage) and the unit
conversion `"s" → N*1000`, `"ms" → N`, both truncated by the `int`
assignment.  `st = none` is a stream that already failed, on which the
trailing check cannot fire. -/
def finishParse (N : ℚ) (suffix ename : List Char) (ek : easing_kind)
    (st : Option (List Char)) : Option animation_description_t :=
  let result : animation_description_t :=
    { length_ms := if suffix = "s".data then truncQ (N * 1000) else truncQ N,
      easing_name := ename, easing := ek }
  match st with
  | some rest =>
    match readToken rest with
    | some _ => none
    | none => some result
  | none => some result

/-- "Format 2: N <s|ms> <easing>" of
`wf::option_type::from_string<animation_description_t>`. -/
def parseFormat2 (cs : List Char) : Option animation_description_t :=
  match readDouble cs with
  | .ok N r1 =>
    match readToken r1 with
    | some (suffix, r2) =>
      if suffix ≠ "ms".data ∧ suffix ≠ "s".data then none
      else
        match readToken r2 with
        | some (ename, r3) =>
          if ename ∈ registryNames then
            finishParse N suffix ename (.named ename) (some r3)
          else if ename = "cubic-bezier".data then
            let p := read4 r3
            finishParse N suffix
              (canonName p.1.1 p.1.2.1 p.1.2.2.1 p.1.2.2.2)
              (.bezier p.1.1 p.1.2.1 p.1.2.2.1 p.1.2.2.2) p.2
          else none
        | none =>
          finishParse N suffix "circle".data (.named "circle".data) none
    | none => none
  | _ => none

/-- `wf::option_type::from_string<animation_description_t>`. -/
def from_string_adesc (cs : List Char) : Option animation_description_t :=
  match parseIntChars cs with
  | some n =>
    some { length_ms := n, easing_name := "circle".data,
           easing := .named "circle".data }
  | none => parseFormat2 cs

/-- `wf::option_type::to_string<animation_description_t>`:
`to_string(length_ms) + "ms " + easing_name`. -/
def to_string_adesc (d : animation_description_t) : List Char :=
  intChars d.length_ms ++ "ms ".data ++ d.easing_name

/-- `epsilon_comparison`: relative comparison with
`std::numeric_limits<double>::epsilon() = 2^-52`. -/
def epsilon_comparison (a b : ℚ) : Bool :=
  |a - b| ≤ (1 / 2 ^ 52) * |a + b|

/-- The first whitespace-separated token of a name, or `[]` when the
extraction fails (a failed `>> std::string` leaves the target empty). -/
def tokenOrEmpty (cs : List Char) : List Char :=
  match readToken cs with
  | some (t, _) => t
  | none => []

/-- `easing_a >> x1_a >> y1_a >> x2_a >> y2_a` on uninitialized
doubles: a conversion failure stores `0`; variables never extracted
(failed sentry / dead stream) are uninitialized in the C++ source and
are modelled as `0` here (both streams of `operator==` scan the same
text, so the two sides always agree on them). -/
def readEq4 (cs : List Char) : ℚ × ℚ × ℚ × ℚ :=
  let cs1 :=
    match readToken cs with
    | some (_, r) => r
    | none => cs
  match readDouble cs1 with
  | .ok v1 r1 =>
    match readDouble r1 with
    | .ok v2 r2 =>
      match readDouble r2 with
      | .ok v3 r3 =>
        match readDouble r3 with
        | .ok v4 _ => (v1, v2, v3, v4)
        | _ => (v1, v2, v3, 0)
      | _ => (v1, v2, 0, 0)
    | _ => (v1, 0, 0, 0)
  | _ => (0, 0, 0, 0)

/-- `wf::animation_description_t::operator==`.  Faithful to the source,
including its two slips: both `std::stringstream`s are constructed
from `easing_name` (the right-hand side's name is never parsed), and
the last conjunct compares `y2_b` with itself. -/
def adesc_beq (a b : animation_description_t) : Bool :=
  if a.easing_name = b.easing_name then a.length_ms == b.length_ms
  else
    let easing_type_a := tokenOrEmpty a.easing_name
    let easing_type_b := tokenOrEmpty a.easing_name
    if easing_type_a ≠ "cubic-bezier".data ∨ easing_type_b ≠ "cubic-bezier".data
    then false
    else
      let pa := readEq4 a.easing_name
      let pb := readEq4 a.easing_name
      epsilon_comparison pa.1 pb.1 &&
      epsilon_comparison pa.2.1 pb.2.1 &&
      epsilon_comparison pa.2.2.1 pb.2.2.1 &&
      epsilon_comparison pb.2.2.2 pb.2.2.2

/-! ## Smoothing function library: the cubic-bezier solver -/

/-- `bezier_helper(t, p0, p1, p2, p3)`. -/
def bezier_helper (t p0 p1 p2 p3 : ℚ) : ℚ :=
  (1 - t) * (1 - t) * (1 - t) * p0 + 3 * (1 - t) * (1 - t) * t * p1 +
    3 * (1 - t) * t * t * p2 + t * t * t * p3

/-- The Newton loop of `get_cubic_bezier` (`for (int i = 0; i < 10; ++i)`):
stop early once `|f| < 1e-6`, otherwise update `t -= f / df`.  `ℚ`
division is total with `x / 0 = 0`; the spot where the C++ code would
instead divide by a zero derivative (producing ±inf) is flagged by
`newton_hits_div_zero` below. -/
def newton_iter : Nat → ℚ → ℚ → ℚ → ℚ → ℚ
  | 0, t, _, _, _ => t
  | fuel + 1, t, x1, x2, x =>
    let f := bezier_helper t 0 x1 x2 1 - x
    let df := 3 * (1 - t) * (1 - t) * x1 + 6 * (1 - t) * t * (x2 - x1) +
      3 * t * t * (1 - x2)
    if |f| < 1 / 1000000 then t
    else newton_iter fuel (t - f / df) x1 x2 x

/-- `wf::animation::smoothing::get_cubic_bezier(x1,y1,x2,y2)` applied
to `x`: run the Newton loop from `t = x` and return the Bezier
y-component at the final `t`. -/
def get_cubic_bezier (x1 y1 x2 y2 x : ℚ) : ℚ :=
  bezier_helper (newton_iter 10 x x1 x2 x) 0 y1 y2 1

/-- Observation predicate on the Newton loop: true when some iteration
reaches the update `t -= f / df` with `df = 0` (in C++ this divides by
zero). -/
def newton_hits_div_zero : Nat → ℚ → ℚ → ℚ → ℚ → Bool
  | 0, _, _, _, _ => false
  | fuel + 1, t, x1, x2, x =>
    let f := bezier_helper t 0 x1 x2 1 - x
    let df := 3 * (1 - t) * (1 - t) * x1 + 6 * (1 - t) * t * (x2 - x1) +
      3 * t * t * (1 - x2)
    if |f| < 1 / 1000000 then false
    else if df = 0 then true
    else newton_hits_div_zero fuel (t - f / df) x1 x2 x

/-! ## Duration tracker (`wf::animation::duration_t`)

Time points are `Int` millisecond timestamps; every operation takes the
current instant `now` explicitly.  The two configuration options are
modelled by their `get_value()` results: `length : Option Int` for the
plain integer option and `descr : Option (Int × (ℚ → ℚ))` for the
description option (its duration together with its bound easing
function).  Easing functions are opaque `ℚ → ℚ` values here. -/

structure duration_impl where
  start_point : Int
  length : Option Int
  descr : Option (Int × (ℚ → ℚ))
  smooth_function : ℚ → ℚ
  is_running : Bool
  reverse : Bool

namespace duration_impl

/-- `impl::get_elapsed`. -/
def get_elapsed (s : duration_impl) (now : Int) : Int := now - s.start_point

/-- `impl::get_duration`. -/
def get_duration (s : duration_impl) : Int :=
  match s.descr with
  | some d => max 1 d.1
  | none =>
    match s.length with
    | some l => max 1 l
    | none => 1

/-- `impl::is_ready`: `get_elapsed() >= get_duration()`. -/
def is_ready (s : duration_impl) (now : Int) : Prop :=
  s.get_duration ≤ s.get_elapsed now

instance (s : duration_impl) (now : Int) : Decidable (s.is_ready now) :=
  inferInstanceAs (Decidable (_ ≤ _))

/-- `std::clamp(progress, 0.0, 1.0)`. -/
def clampQ (v lo hi : ℚ) : ℚ := if v < lo then lo else if hi < v then hi else v

/-- `impl::get_progress_percentage`. -/
def get_progress_percentage (s : duration_impl) (now : Int) : ℚ :=
  if (s.length.isNone && s.descr.isNone) = true ∨ s.is_ready now then 1
  else
    let progress : ℚ := (s.get_elapsed now : ℚ) / (s.get_duration : ℚ)
    let progress := if s.reverse then 1 - progress else progress
    clampQ progress 0 1

/-- `impl::progress`. -/
def progress (s : duration_impl) (now : Int) : ℚ :=
  if s.is_ready now then (if s.reverse then 0 else 1)
  else
    match s.descr with
    | some d => d.2 (s.get_progress_percentage now)
    | none => s.smooth_function (s.get_progress_percentage now)

/-- `duration_t::start`. -/
def start (s : duration_impl) (now : Int) : duration_impl :=
  { s with is_running := true, start_point := now }

/-- `duration_t::running`: the returned flag together with the state
after the call. -/
def running (s : duration_impl) (now : Int) : Bool × duration_impl :=
  if s.is_ready now then (s.is_running, { s with is_running := false })
  else (true, s)

/-- `duration_t::reverse`. -/
def reverse_direction (s : duration_impl) (now : Int) : duration_impl :=
  let total_duration := s.get_duration
  let elapsed := min (s.get_elapsed now) total_duration
  let remaining := total_duration - elapsed
  { s with start_point := now - remaining, reverse := !s.reverse }

/-- The flags returned by consecutive `running()` polls at the given
instants (each call may consume the one-shot `is_running` latch). -/
def runningTrace (s : duration_impl) : List Int → List Bool
  | [] => []
  | t :: ts =>
    let r := s.running t
    r.1 :: runningTrace r.2 ts

end duration_impl

/-- `wf::animation::timed_transition_t::operator double()`: the value a
transition bound to tracker state `s` with endpoints `a`, `b` exposes
at instant `now`: `(1 - alpha) * start + alpha * end`. -/
def timed_value (s : duration_impl) (now : Int) (a b : ℚ) : ℚ :=
  let alpha := s.progress now
  (1 - alpha) * a + alpha * b

/-! ## Spec-side characterizations of the parser

`parse_success_spec` states the success postcondition of claim C6 (as
amended) and `parse_fail_spec` the failure characterization of claim
C7 (as amended), both phrased over the scanning primitives declared
above. -/

/-- The postcondition of a successful
`from_string<animation_description_t>` parse: either the bare-integer
legacy format, or number + unit + easing with the unit conversion
truncated, the missing-easing default, the registry lookup, and the
cubic-bezier canonicalization (with the C++11 parameter-reading
behavior embodied in `read4`). -/
def parse_success_spec (cs : List Char) (d : animation_description_t) : Prop :=
  (∃ n, parseIntChars cs = some n ∧
     d = { length_ms := n, easing_name := "circle".data,
           easing := .named "circle".data }) ∨
  (parseIntChars cs = none ∧
   ∃ N r1 suffix r2, readDouble cs = .ok N r1 ∧
     readToken r1 = some (suffix, r2) ∧
     (suffix = "ms".data ∨ suffix = "s".data) ∧
     d.length_ms = (if suffix = "s".data then truncQ (N * 1000) else truncQ N) ∧
     ((readToken r2 = none ∧ d.easing_name = "circle".data ∧
         d.easing = .named "circle".data) ∨
      (∃ e r3, readToken r2 = some (e, r3) ∧ e ∈ registryNames ∧
         d.easing_name = e ∧ d.easing = .named e) ∨
      (∃ r3 v1 v2 v3 v4 st, readToken r2 = some ("cubic-bezier".data, r3) ∧
         read4 r3 = ((v1, v2, v3, v4), st) ∧
         d.easing_name = canonName v1 v2 v3 v4 ∧
         d.easing = .bezier v1 v2 v3 v4)))

/-- The failure characterization of
`from_string<animation_description_t>`: not a bare integer, and the
number+unit pair cannot be read, or the unit is invalid, or the easing
token is neither registered nor "cubic-bezier", or trailing content
follows a registered easing, or trailing content follows a
cubic-bezier whose four parameter reads all succeeded (when a
parameter read fails the stream is dead and the trailing check cannot
fire, so trailing garbage there is accepted). -/
def parse_fail_spec (cs : List Char) : Prop :=
  parseIntChars cs = none ∧
  ((¬∃ N r1 suffix r2, readDouble cs = .ok N r1 ∧
      readToken r1 = some (suffix, r2)) ∨
   (∃ N r1 suffix r2, readDouble cs = .ok N r1 ∧
      readToken r1 = some (suffix, r2) ∧
      suffix ≠ "ms".data ∧ suffix ≠ "s".data) ∨
   (∃ N r1 suffix r2 e r3, readDouble cs = .ok N r1 ∧
      readToken r1 = some (suffix, r2) ∧ readToken r2 = some (e, r3) ∧
      e ∉ registryNames ∧ e ≠ "cubic-bezier".data) ∨
   (∃ N r1 suffix r2 e r3 tok r4, readDouble cs = .ok N r1 ∧
      readToken r1 = some (suffix, r2) ∧ readToken r2 = some (e, r3) ∧
      e ∈ registryNames ∧ readToken r3 = some (tok, r4)) ∨
   (∃ N r1 suffix r2 r3 ps r4 tok r5, readDouble cs = .ok N r1 ∧
      readToken r1 = some (suffix, r2) ∧
      readToken r2 = some ("cubic-bezier".data, r3) ∧
      read4 r3 = (ps, some r4) ∧ readToken r4 = some (tok, r5)))

/-! ## Lemmas and claim theorems -/

/-! ### Digit character evaluations (for rewriting concrete scans) -/

theorem digitVal_c0 : digitVal '0' = 0 := by decide

theorem digitVal_c1 : digitVal '1' = 1 := by decide

theorem digitVal_c2 : digitVal '2' = 2 := by decide

theorem digitVal_c3 : digitVal '3' = 3 := by decide

theorem digitVal_c4 : digitVal '4' = 4 := by decide

theorem digitVal_c5 : digitVal '5' = 5 := by decide

theorem digitVal_c6 : digitVal '6' = 6 := by decide

theorem digitVal_c7 : digitVal '7' = 7 := by decide

theorem digitVal_c8 : digitVal '8' = 8 := by decide

theorem digitVal_c9 : digitVal '9' = 9 := by decide

section DigitLemmas

theorem digitChar10_isDigit {n : Nat} (h : n < 10) :
    (digitChar10 n).isDigit = true := by
  interval_cases n <;> decide

theorem digitVal_digitChar10 {n : Nat} (h : n < 10) :
    digitVal (digitChar10 n) = n := by
  interval_cases n <;> decide

theorem digitsVal_append_singleton (cs : List Char) (c : Char) :
    digitsVal (cs ++ [c]) = digitsVal cs * 10 + digitVal c := by
  simp [digitsVal, List.foldl_append]

theorem natCharsAux_all_digits :
    ∀ fuel n, ((natCharsAux fuel n).all Char.isDigit) = true := by
  intro fuel
  induction fuel with
  | zero => intro n; simp [natCharsAux]
  | succ f ih =>
    intro n
    by_cases h : n < 10
    · simp [natCharsAux, h, digitChar10_isDigit h]
    · have h10 : n % 10 < 10 := Nat.mod_lt _ (by norm_num)
      simp only [natCharsAux, if_neg h, List.all_append]
      simp [ih (n / 10), digitChar10_isDigit h10]

theorem natChars_all_digits (n : Nat) :
    ((natChars n).all Char.isDigit) = true := natCharsAux_all_digits _ n

theorem natCharsAux_ne_nil (fuel n : Nat) (h : 0 < fuel) :
    natCharsAux fuel n ≠ [] := by
  cases fuel with
  | zero => omega
  | succ f =>
    by_cases h10 : n < 10 <;> simp [natCharsAux, h10]

theorem natChars_ne_nil (n : Nat) : natChars n ≠ [] :=
  natCharsAux_ne_nil _ n (Nat.succ_pos n)

theorem digitsVal_natCharsAux :
    ∀ fuel n, n < fuel → digitsVal (natCharsAux fuel n) = n := by
  intro fuel
  induction fuel with
  | zero => intro n h; omega
  | succ f ih =>
    intro n h
    by_cases h10 : n < 10
    · simp [natCharsAux, h10, digitsVal, digitVal_digitChar10 h10]
    · have hdiv : n / 10 < f := by
        have h1 : n / 10 < n := Nat.div_lt_self (by omega) (by norm_num)
        omega
      have hm : n % 10 < 10 := Nat.mod_lt _ (by norm_num)
      rw [natCharsAux, if_neg h10, digitsVal_append_singleton,
        ih (n / 10) hdiv, digitVal_digitChar10 hm]
      omega

theorem digitsVal_natChars (n : Nat) : digitsVal (natChars n) = n :=
  digitsVal_natCharsAux _ n (Nat.lt_succ_self n)

theorem natCharsPad_all_digits :
    ∀ k n, ((natCharsPad k n).all Char.isDigit) = true := by
  intro k
  induction k with
  | zero => intro n; simp [natCharsPad]
  | succ k ih =>
    intro n
    have hm : n % 10 < 10 := Nat.mod_lt _ (by norm_num)
    simp only [natCharsPad, List.all_append]
    simp [ih (n / 10), digitChar10_isDigit hm]

theorem natCharsPad_length (k : Nat) : ∀ n, (natCharsPad k n).length = k := by
  induction k with
  | zero => intro n; simp [natCharsPad]
  | succ k ih => intro n; simp [natCharsPad, ih]

theorem digitsVal_natCharsPad :
    ∀ k n, digitsVal (natCharsPad k n) = n % 10 ^ k := by
  intro k
  induction k with
  | zero => intro n; simp [natCharsPad, digitsVal, Nat.mod_one]
  | succ k ih =>
    intro n
    have hm : n % 10 < 10 := Nat.mod_lt _ (by norm_num)
    rw [natCharsPad, digitsVal_append_singleton, ih (n / 10),
      digitVal_digitChar10 hm, pow_succ, Nat.mul_comm (10 ^ k) 10,
      Nat.mod_mul]
    ring

theorem isWsChar_of_isDigit {c : Char} (h : c.isDigit = true) :
    isWsChar c = false := by
  simp only [isWsChar, Bool.or_eq_false_iff, decide_eq_false_iff_not]
  refine ⟨⟨⟨?_, ?_⟩, ?_⟩, ?_⟩ <;> rintro rfl <;> simp at h

theorem ne_of_isDigit {c d : Char} (h : c.isDigit = true)
    (hd : d.isDigit = false) : c ≠ d := by
  rintro rfl; rw [h] at hd; cases hd

end DigitLemmas

/-! ### Tracker helper lemmas -/

theorem get_duration_pos (s : duration_impl) : 1 ≤ s.get_duration := by
  unfold duration_impl.get_duration
  rcases s.descr with _ | d
  · rcases s.length with _ | l
    · simp
    · simp [le_max_left]
  · simp [le_max_left]

theorem clampQ_eq_max_min (v : ℚ) :
    duration_impl.clampQ v 0 1 = max 0 (min 1 v) := by
  unfold duration_impl.clampQ
  split_ifs with h1 h2
  · rw [min_eq_right (by linarith), max_eq_left (by linarith)]
  · rw [min_eq_left (by linarith), max_eq_right (by norm_num)]
  · rw [min_eq_right (by linarith), max_eq_right (by linarith)]

/-! ### Claim C5 (cubic-bezier solver) -/

/-- Claim C5, counterexample.  The claim asserts that the Newton update
never divides by `f'(t) = 0`.  At control parameters `x1 = 2`,
`x2 = 1` and input `x = 1/2`, the very first iteration has
`f = bezier_x(1/2) - 1/2 = 3/4` (so the early-stop guard does not
fire) while `f'(1/2) = 0`, so the update `t -= f / df` divides by
zero. -/
theorem newton_div_zero_counterexample :
    newton_hits_div_zero 10 (1 / 2) 2 1 (1 / 2) = true ∧
    ¬(|bezier_helper (1 / 2) 0 2 1 1 - 1 / 2| < 1 / 1000000) ∧
    3 * (1 - (1 / 2 : ℚ)) * (1 - (1 / 2 : ℚ)) * 2 +
        6 * (1 - (1 / 2 : ℚ)) * (1 / 2) * (1 - 2) +
        3 * (1 / 2 : ℚ) * (1 / 2) * (1 - 1) = 0 := by
  have habs : |bezier_helper (1 / 2) 0 2 1 1 - 1 / 2| = (3 / 4 : ℚ) := by
    rw [show bezier_helper (1 / 2) 0 2 1 1 - 1 / 2 = (3 / 4 : ℚ) by
      norm_num [bezier_helper]]
    rw [abs_of_nonneg (by norm_num : (0 : ℚ) ≤ 3 / 4)]
  refine ⟨?_, by rw [habs]; norm_num, by norm_num⟩
  rw [show (10 : Nat) = 9 + 1 from rfl, newton_hits_div_zero]
  simp only [habs]
  norm_num

/-- Claim C5, amended: the solver runs Newton's method from the initial
guess `t0 = x` for at most 10 iterations with the early stop
`|f(t)| < 1e-6`, and always terminates returning the Bezier
y-component at the final `t`; in particular whenever the initial guess
already satisfies the stop condition the returned value is the
y-component at `t = x` itself.  (The division by `f'(t)`, however, can
be reached with `f'(t) = 0`, as the counterexample shows.) -/
theorem cubic_bezier_early_stop (x1 y1 x2 y2 x : ℚ)
    (h : |bezier_helper x 0 x1 x2 1 - x| < 1 / 1000000) :
    get_cubic_bezier x1 y1 x2 y2 x = bezier_helper x 0 y1 y2 1 := by
  unfold get_cubic_bezier
  have h10 : newton_iter 10 x x1 x2 x = newton_iter (9 + 1) x x1 x2 x := rfl
  rw [h10, newton_iter, if_pos h]

/-- Witness for `cubic_bezier_early_stop` at
`(x1, y1, x2, y2) = (0, 0, 1, 1)`, `x = 0`. -/
theorem cubic_bezier_early_stop_witness :
    |bezier_helper 0 0 0 1 1 - 0| < 1 / 1000000 ∧
    get_cubic_bezier 0 0 1 1 0 = bezier_helper 0 0 0 1 1 :=
  ⟨by norm_num [bezier_helper],
   cubic_bezier_early_stop 0 0 1 1 0 (by norm_num [bezier_helper])⟩

theorem epsilon_comparison_self (a : ℚ) : epsilon_comparison a a = true := by
  simp only [epsilon_comparison, decide_eq_true_eq, sub_self, abs_zero]
  positivity

/-! ### Claim C1 (description equality) -/

/-- Claim C1: evaluation of `operator==` at the failing input.  The two
descriptions both have `duration_ms = 100` but their cubic-bezier
control coordinates differ in the first decimal digit (`0.25` versus
`0.5`), so per the claim they must compare unequal; the code returns
`true` because both parsing streams are constructed from the left-hand
side's `easing_name` (and `y2_b` is compared with itself), making the
coordinate comparison vacuous. -/
theorem adesc_eq_bug_eval :
    adesc_beq
      { length_ms := 100, easing_name := "cubic-bezier 0.25 0.25 0.25 0.25".data,
        easing := .bezier (1 / 4) (1 / 4) (1 / 4) (1 / 4) }
      { length_ms := 100, easing_name := "cubic-bezier 0.5 0.25 0.25 0.25".data,
        easing := .bezier (1 / 2) (1 / 4) (1 / 4) (1 / 4) } = true := by
  norm_num +decide [adesc_beq, tokenOrEmpty, readToken, readEq4, readDouble,
    numAfterSign, splitSign, isWsChar, Char.isDigit, List.dropWhile,
    List.takeWhile, digitsVal, List.foldl, digitVal_c0, digitVal_c2,
    digitVal_c5, epsilon_comparison_self]

/-! ### Claim C9 (duration clamping) -/

/-- Claim C9: `total_duration()` returns `max(1, descr.length_ms)` for a
description-bound tracker, `max(1, option.value)` for an integer-bound
tracker, and `1` when no source is bound; in every state it is at
least `1`. -/
theorem total_duration_clamped (s : duration_impl) :
    (∀ d, s.descr = some d → s.get_duration = max 1 d.1) ∧
    (s.descr = none → ∀ l, s.length = some l → s.get_duration = max 1 l) ∧
    (s.descr = none → s.length = none → s.get_duration = 1) ∧
    1 ≤ s.get_duration := by
  refine ⟨?_, ?_, ?_, get_duration_pos s⟩
  · intro d hd; unfold duration_impl.get_duration; rw [hd]
  · intro hd l hl; unfold duration_impl.get_duration; rw [hd, hl]
  · intro hd hl; unfold duration_impl.get_duration; rw [hd, hl]

/-- Witness for `total_duration_clamped` on a tracker bound to a plain
integer option holding `-7` (clamped up to 1). -/
theorem total_duration_clamped_witness :
    duration_impl.get_duration
        { start_point := 0, length := some (-7), descr := none,
          smooth_function := fun x => x, is_running := false, reverse := false }
      = max 1 (-7) ∧
    1 ≤ duration_impl.get_duration
        { start_point := 0, length := some (-7), descr := none,
          smooth_function := fun x => x, is_running := false, reverse := false } :=
  ⟨(total_duration_clamped _).2.1 rfl (-7) rfl, (total_duration_clamped _).2.2.2⟩

/-! ### Claim C10 (negative durations pass through the codec) -/

/-- Claim C10: `parse("-5 ms circle")` succeeds with
`duration_ms = -5`, serialize emits `"-5ms circle"` verbatim, the pair
round-trips, and clamping to the 1 ms floor happens only in
`total_duration()`, never in the codec. -/
theorem negative_duration_codec_passthrough :
    from_string_adesc "-5 ms circle".data =
      some { length_ms := -5, easing_name := "circle".data,
             easing := .named "circle".data } ∧
    to_string_adesc
        { length_ms := -5, easing_name := "circle".data,
          easing := .named "circle".data } = "-5ms circle".data ∧
    from_string_adesc "-5ms circle".data =
      some { length_ms := -5, easing_name := "circle".data,
             easing := .named "circle".data } ∧
    duration_impl.get_duration
        { start_point := 0, length := none, descr := some (-5, fun x => x),
          smooth_function := fun x => x, is_running := false, reverse := false }
      = 1 := by
  refine ⟨?_, by decide, ?_, by norm_num [duration_impl.get_duration]⟩ <;>
    norm_num +decide [from_string_adesc, parseIntChars, parseFormat2, readDouble,
      readToken, isWsChar, Char.isDigit, List.dropWhile, List.takeWhile, splitSign,
      numAfterSign, digitsVal, List.foldl, digitVal_c5, finishParse, registryNames,
      truncQ]

/-! ### Claim C8 (progress pipeline) -/

/-- Claim C8: `progress_fraction()` returns 1 when the tracker is
unbound or elapsed, otherwise `elapsed/total`, inverted if the
`reverse` flag is set, clamped to `[0,1]`; `progress()` returns 0/1 at
the elapsed boundary depending on `reverse`, otherwise applies the
bound easing function (the description's easing, or the externally
supplied smooth function) to the fraction. -/
theorem progress_pipeline (s : duration_impl) (now : Int) :
    (((s.length.isNone && s.descr.isNone) = true ∨ s.is_ready now) →
        s.get_progress_percentage now = 1) ∧
    ((s.length.isNone && s.descr.isNone) = false → ¬s.is_ready now →
        s.get_progress_percentage now =
          max 0 (min 1 (if s.reverse
            then 1 - (s.get_elapsed now : ℚ) / (s.get_duration : ℚ)
            else (s.get_elapsed now : ℚ) / (s.get_duration : ℚ)))) ∧
    (s.is_ready now → s.progress now = (if s.reverse then 0 else 1)) ∧
    (¬s.is_ready now →
        s.progress now =
          (match s.descr with
           | some d => d.2
           | none => s.smooth_function) (s.get_progress_percentage now)) := by
  refine ⟨?_, ?_, ?_, ?_⟩
  · intro h
    unfold duration_impl.get_progress_percentage
    rw [if_pos h]
  · intro hb hr
    unfold duration_impl.get_progress_percentage
    rw [if_neg (by simp [hb, hr]), clampQ_eq_max_min]
  · intro h
    unfold duration_impl.progress
    rw [if_pos h]
  · intro h
    unfold duration_impl.progress
    rw [if_neg h]
    cases s.descr <;> rfl

/-- Witness for `progress_pipeline`: a tracker bound to a 100 ms
integer option, polled at elapsed 150 (past the duration). -/
theorem progress_pipeline_witness :
    duration_impl.get_progress_percentage
        { start_point := 0, length := some 100, descr := none,
          smooth_function := fun x => x, is_running := true, reverse := false }
        150 = 1 ∧
    duration_impl.progress
        { start_point := 0, length := some 100, descr := none,
          smooth_function := fun x => x, is_running := true, reverse := false }
        150 = 1 := by
  constructor
  · exact (progress_pipeline _ 150).1 (Or.inr (by decide))
  · have h := (progress_pipeline
      { start_point := 0, length := some 100, descr := none,
        smooth_function := fun x => x, is_running := true, reverse := false }
      150).2.2.1 (by decide)
    simpa using h

/-! ### Claim C3 (one-shot latch of running()) -/

theorem start_get_duration (s : duration_impl) (t0 : Int) :
    (s.start t0).get_duration = s.get_duration := rfl

theorem start_get_elapsed (s : duration_impl) (t0 t : Int) :
    (s.start t0).get_elapsed t = t - t0 := rfl

theorem running_not_ready (s : duration_impl) (t : Int) (h : ¬s.is_ready t) :
    s.running t = (true, s) := by
  unfold duration_impl.running; rw [if_neg h]

theorem running_ready (s : duration_impl) (t : Int) (h : s.is_ready t) :
    s.running t = (s.is_running, { s with is_running := false }) := by
  unfold duration_impl.running; rw [if_pos h]

theorem runningTrace_cons (s : duration_impl) (t : Int) (ts : List Int) :
    s.runningTrace (t :: ts) =
      (s.running t).1 :: (s.running t).2.runningTrace ts := rfl

theorem runningTrace_all_ready (ts : List Int) :
    ∀ s : duration_impl, s.is_running = false →
      (∀ t ∈ ts, s.is_ready t) →
      s.runningTrace ts = List.replicate ts.length false := by
  induction ts with
  | nil => intro s _ _; rfl
  | cons t ts ih =>
    intro s hrun h
    rw [runningTrace_cons, running_ready s t (h t (by simp)), hrun]
    simp only [List.length_cons, List.replicate_succ, List.cons.injEq, true_and]
    exact ih _ rfl (fun u hu => h u (by simp [hu]))

theorem runningTrace_not_ready_head (ts1 : List Int) (rest : List Int)
    (s : duration_impl) (h : ∀ t ∈ ts1, ¬s.is_ready t) :
    s.runningTrace (ts1 ++ rest) =
      List.replicate ts1.length true ++ s.runningTrace rest := by
  induction ts1 with
  | nil => simp
  | cons t ts ih =>
    rw [List.cons_append, runningTrace_cons, running_not_ready s t (h t (by simp))]
    simp only [List.length_cons, List.replicate_succ, List.cons_append,
      List.cons.injEq, true_and]
    exact ih (fun u hu => h u (by simp [hu]))

/-- Claim C3: after `start()`, `running()` returns true on every call
while elapsed time is strictly below the total duration, returns true
exactly once more on the first call at or past the duration (consuming
the `is_running` latch), and false on every later call. -/
theorem running_one_shot_latch (s : duration_impl) (t0 : Int)
    (ts1 ts2 : List Int) (tE : Int)
    (h1 : ∀ t ∈ ts1, t - t0 < s.get_duration)
    (h2 : s.get_duration ≤ tE - t0)
    (h3 : ∀ t ∈ ts2, s.get_duration ≤ t - t0) :
    (s.start t0).runningTrace (ts1 ++ tE :: ts2) =
      List.replicate ts1.length true ++ true :: List.replicate ts2.length false := by
  have hpre : ∀ t ∈ ts1, ¬(s.start t0).is_ready t := by
    intro t ht
    unfold duration_impl.is_ready
    rw [start_get_duration, start_get_elapsed]
    exact not_le.mpr (h1 t ht)
  rw [runningTrace_not_ready_head ts1 (tE :: ts2) (s.start t0) hpre]
  have hready : (s.start t0).is_ready tE := by
    unfold duration_impl.is_ready
    rw [start_get_duration, start_get_elapsed]
    exact h2
  rw [runningTrace_cons, running_ready (s.start t0) tE hready]
  refine congrArg (List.replicate ts1.length true ++ ·) ?_
  simp only [List.cons.injEq, true_and]
  refine ⟨rfl, ?_⟩
  apply runningTrace_all_ready
  · rfl
  · intro t ht
    show s.get_duration ≤ t - t0
    exact h3 t ht

/-- Witness for `running_one_shot_latch`: a 100 ms tracker started at
time 0 and polled at 10, 50, 100, 150, 200: the trace is
true, true, true, false, false. -/
theorem running_one_shot_latch_witness :
    (duration_impl.start
        { start_point := 0, length := some 100, descr := none,
          smooth_function := fun x => x, is_running := false, reverse := false }
        0).runningTrace ([10, 50] ++ 100 :: [150, 200]) =
      List.replicate 2 true ++ true :: List.replicate 2 false := by
  exact running_one_shot_latch _ 0 [10, 50] [150, 200] 100
    (by decide) (by decide) (by decide)

/-! ### Claim C4 (reversal continuity) -/

theorem reverse_direction_fields (s : duration_impl) (now : Int) :
    (s.reverse_direction now).length = s.length ∧
    (s.reverse_direction now).descr = s.descr ∧
    (s.reverse_direction now).smooth_function = s.smooth_function ∧
    (s.reverse_direction now).get_duration = s.get_duration ∧
    (s.reverse_direction now).reverse = !s.reverse ∧
    (s.reverse_direction now).get_elapsed now =
      s.get_duration - min (s.get_elapsed now) s.get_duration := by
  refine ⟨rfl, rfl, rfl, rfl, rfl, ?_⟩
  show now - (now - (s.get_duration - min (s.get_elapsed now) s.get_duration)) = _
  ring

theorem unbound_get_duration (s : duration_impl)
    (h : (s.length.isNone && s.descr.isNone) = true) : s.get_duration = 1 := by
  rcases Bool.and_eq_true_iff.mp h with ⟨hl, hd⟩
  unfold duration_impl.get_duration
  rw [Option.isNone_iff_eq_none.mp hd, Option.isNone_iff_eq_none.mp hl]

/-- Claim C4, counterexample.  The claim asserts that for every bound
tracker the interpolated value at the instant of a `reverse_direction`
call is unchanged.  A tracker bound to a 100 ms integer option with a
smooth function having `f(0) = 1/2` (any easing whose value at 0 is
nonzero, e.g. the registry's sigmoid, behaves this way), reversed at
the very instant it was started (elapsed = 0): before the call the
transition from 0 to 1 exposes `f(0) = 1/2`; the call makes the
tracker elapsed-in-reverse, so the value snaps to `0`. -/
theorem reverse_direction_jump_counterexample :
    timed_value
        (duration_impl.reverse_direction
          { start_point := 0, length := some 100, descr := none,
            smooth_function := fun _ => 1 / 2, is_running := true,
            reverse := false } 0) 0 0 1 ≠
      timed_value
        { start_point := 0, length := some 100, descr := none,
          smooth_function := fun _ => 1 / 2, is_running := true,
          reverse := false } 0 0 1 := by
  have hafter : timed_value
      (duration_impl.reverse_direction
        { start_point := 0, length := some 100, descr := none,
          smooth_function := fun _ => 1 / 2, is_running := true,
          reverse := false } 0) 0 0 1 = 0 := by
    norm_num [timed_value, duration_impl.reverse_direction,
      duration_impl.progress, duration_impl.is_ready, duration_impl.get_elapsed,
      duration_impl.get_duration]
  have hbefore : timed_value
      { start_point := 0, length := some 100, descr := none,
        smooth_function := fun _ => 1 / 2, is_running := true,
        reverse := false } 0 0 1 = 1 / 2 := by
    norm_num [timed_value, duration_impl.progress, duration_impl.is_ready,
      duration_impl.get_elapsed, duration_impl.get_duration,
      duration_impl.get_progress_percentage, duration_impl.clampQ]
  rw [hafter, hbefore]
  norm_num

/-- Claim C4, amended: `reverse_direction()` computes
`remaining = total_duration() - min(elapsed(), total_duration())`,
resets the start point so that the new elapsed time equals the old
remaining time, and toggles the reverse flag; for a tracker that is
strictly mid-flight at the instant of the call
(`0 < elapsed() < total_duration()`) the interpolated value exposed by
a bound TimedTransition is unchanged.  (At the boundaries
`elapsed() = 0` or `elapsed() ≥ total_duration()` the value may jump,
as the counterexample shows.) -/
theorem reverse_direction_midflight_continuity (s : duration_impl)
    (now : Int) (a b : ℚ)
    (h1 : 0 < s.get_elapsed now) (h2 : s.get_elapsed now < s.get_duration) :
    (s.reverse_direction now).get_elapsed now =
      s.get_duration - min (s.get_elapsed now) s.get_duration ∧
    (s.reverse_direction now).reverse = !s.reverse ∧
    timed_value (s.reverse_direction now) now a b = timed_value s now a b := by
  obtain ⟨hfl, hfd, hfs, hfdur, hfrev, hfel⟩ := reverse_direction_fields s now
  refine ⟨hfel, hfrev, ?_⟩
  have hmin : min (s.get_elapsed now) s.get_duration = s.get_elapsed now :=
    min_eq_left (le_of_lt h2)
  have helr : (s.reverse_direction now).get_elapsed now =
      s.get_duration - s.get_elapsed now := by rw [hfel, hmin]
  have hnr_old : ¬s.is_ready now := not_le.mpr h2
  have hnr_new : ¬(s.reverse_direction now).is_ready now := by
    unfold duration_impl.is_ready
    rw [helr, hfdur]
    omega
  have hpct : (s.reverse_direction now).get_progress_percentage now =
      s.get_progress_percentage now := by
    by_cases hub : (s.length.isNone && s.descr.isNone) = true
    · exfalso
      have := unbound_get_duration s hub
      omega
    · have hub' : ((s.reverse_direction now).length.isNone &&
          (s.reverse_direction now).descr.isNone) = true → False := by
        rw [hfl, hfd]; exact fun hc => hub hc
      unfold duration_impl.get_progress_percentage
      rw [if_neg (by rintro (hc | hc); exacts [hub' hc, hnr_new hc]),
        if_neg (by rintro (hc | hc); exacts [hub hc, hnr_old hc])]
      have hT1 : 1 ≤ s.get_duration := get_duration_pos s
      have hT0 : (s.get_duration : ℚ) ≠ 0 := by
        intro hc
        have : s.get_duration = 0 := by exact_mod_cast hc
        omega
      rw [helr, hfdur, hfrev]
      cases hrv : s.reverse with
      | false =>
        simp only [Bool.not_false, if_true, if_false, ite_true, ite_false]
        congr 1
        have he : ((s.get_duration - s.get_elapsed now : Int) : ℚ) =
            (s.get_duration : ℚ) - (s.get_elapsed now : ℚ) := by push_cast; ring
        rw [he]
        field_simp
      | true =>
        simp only [Bool.not_true, if_true, if_false, ite_true, ite_false]
        congr 1
        have he : ((s.get_duration - s.get_elapsed now : Int) : ℚ) =
            (s.get_duration : ℚ) - (s.get_elapsed now : ℚ) := by push_cast; ring
        rw [he]
        field_simp
  unfold timed_value
  have hprog : (s.reverse_direction now).progress now = s.progress now := by
    unfold duration_impl.progress
    rw [if_neg hnr_new, if_neg hnr_old, hfd, hfs, hpct]
  rw [hprog]

/-- Witness for `reverse_direction_midflight_continuity`: a 100 ms
tracker reversed at elapsed 50. -/
theorem reverse_direction_midflight_continuity_witness :
    0 < duration_impl.get_elapsed
        { start_point := 0, length := some 100, descr := none,
          smooth_function := fun x => x, is_running := true, reverse := false }
        50 ∧
    timed_value
        (duration_impl.reverse_direction
          { start_point := 0, length := some 100, descr := none,
            smooth_function := fun x => x, is_running := true,
            reverse := false } 50) 50 0 1 =
      timed_value
        { start_point := 0, length := some 100, descr := none,
          smooth_function := fun x => x, is_running := true,
          reverse := false } 50 0 1 :=
  ⟨by decide,
   (reverse_direction_midflight_continuity _ 50 0 1 (by decide) (by decide)).2.2⟩

/-! ### Scanning lemmas -/

theorem takeWhile_append_of_all {α} (p : α → Bool) (xs ys : List α)
    (h : ∀ a ∈ xs, p a = true) :
    (xs ++ ys).takeWhile p = xs ++ ys.takeWhile p := by
  induction xs with
  | nil => simp
  | cons x xs ih =>
    rw [List.cons_append, List.takeWhile_cons, if_pos (h x (by simp)),
      ih (fun a ha => h a (by simp [ha])), List.cons_append]

theorem dropWhile_append_of_all {α} (p : α → Bool) (xs ys : List α)
    (h : ∀ a ∈ xs, p a = true) :
    (xs ++ ys).dropWhile p = ys.dropWhile p := by
  induction xs with
  | nil => simp
  | cons x xs ih =>
    rw [List.cons_append, List.dropWhile_cons, if_pos (h x (by simp))]
    exact ih (fun a ha => h a (by simp [ha]))

theorem takeWhile_eq_self_of_all {α} (p : α → Bool) (xs : List α)
    (h : ∀ a ∈ xs, p a = true) : xs.takeWhile p = xs := by
  have := takeWhile_append_of_all p xs [] h
  simpa using this

theorem dropWhile_eq_nil_of_all {α} (p : α → Bool) (xs : List α)
    (h : ∀ a ∈ xs, p a = true) : xs.dropWhile p = [] := by
  have := dropWhile_append_of_all p xs [] h
  simpa using this

theorem dropWhile_cons_of_false {α} (p : α → Bool) (x : α) (xs : List α)
    (h : p x = false) : (x :: xs).dropWhile p = x :: xs := by
  rw [List.dropWhile_cons, if_neg (by simp [h])]

theorem takeWhile_cons_of_false {α} (p : α → Bool) (x : α) (xs : List α)
    (h : p x = false) : (x :: xs).takeWhile p = [] := by
  rw [List.takeWhile_cons, if_neg (by simp [h])]

theorem readDouble_cons_ws (c : Char) (cs : List Char)
    (h : isWsChar c = true) : readDouble (c :: cs) = readDouble cs := by
  unfold readDouble
  rw [List.dropWhile_cons, if_pos (by simp [h])]

theorem readToken_cons_ws (c : Char) (cs : List Char)
    (h : isWsChar c = true) : readToken (c :: cs) = readToken cs := by
  unfold readToken
  rw [List.dropWhile_cons, if_pos (by simp [h])]

theorem readToken_exact (tok rest : List Char) (hne : tok ≠ [])
    (htok : ∀ c ∈ tok, isWsChar c = false)
    (hrest : rest = [] ∨ ∃ t, rest = ' ' :: t) :
    readToken (tok ++ rest) = some (tok, rest) := by
  obtain ⟨c, cs, rfl⟩ := List.exists_cons_of_ne_nil hne
  have htake : ((c :: cs) ++ rest).takeWhile (fun x => !isWsChar x) =
      (c :: cs) ++ rest.takeWhile (fun x => !isWsChar x) :=
    takeWhile_append_of_all _ _ _ (fun a ha => by simp [htok a ha])
  have hdrop : ((c :: cs) ++ rest).dropWhile (fun x => !isWsChar x) =
      rest.dropWhile (fun x => !isWsChar x) :=
    dropWhile_append_of_all _ _ _ (fun a ha => by simp [htok a ha])
  have htr : rest.takeWhile (fun x => !isWsChar x) = [] := by
    rcases hrest with rfl | ⟨t, rfl⟩
    · rfl
    · exact takeWhile_cons_of_false _ _ _ (by decide)
  have hdr : rest.dropWhile (fun x => !isWsChar x) = rest := by
    rcases hrest with rfl | ⟨t, rfl⟩
    · rfl
    · exact dropWhile_cons_of_false _ _ _ (by decide)
  unfold readToken
  rw [List.cons_append, dropWhile_cons_of_false _ _ _ (htok c (by simp))]
  show some (List.takeWhile (fun x => !isWsChar x) (c :: (cs ++ rest)),
      List.dropWhile (fun x => !isWsChar x) (c :: (cs ++ rest))) = _
  rw [show c :: (cs ++ rest) = (c :: cs) ++ rest from rfl, htake, htr, hdrop, hdr,
    List.append_nil]

theorem splitSign_digit (d0 : Char) (cs : List Char) (hd0 : d0.isDigit = true) :
    splitSign (d0 :: cs) = (false, d0 :: cs) := by
  unfold splitSign
  show (if d0 = '-' then (true, cs)
    else if d0 = '+' then (false, cs) else (false, d0 :: cs)) = _
  rw [if_neg (ne_of_isDigit hd0 (by decide)), if_neg (ne_of_isDigit hd0 (by decide))]

theorem numAfterSign_digits (ds rest : List Char) (hne : ds ≠ [])
    (hds : ∀ c ∈ ds, c.isDigit = true)
    (hrest : ∀ c t, rest = c :: t →
      c.isDigit = false ∧ c ≠ '.' ∧ c ≠ 'e' ∧ c ≠ 'E') :
    numAfterSign (ds ++ rest) = some ((digitsVal ds : ℚ), rest) := by
  rcases hr : rest with _ | ⟨c, t⟩
  · subst hr
    have hip : (ds ++ ([] : List Char)).takeWhile Char.isDigit = ds := by
      rw [takeWhile_append_of_all _ _ _ hds]; simp
    have hr1 : (ds ++ ([] : List Char)).dropWhile Char.isDigit = [] := by
      rw [dropWhile_append_of_all _ _ _ hds]; simp
    simp only [numAfterSign, hip, hr1]
    simp [hne, digitsVal]
  · subst hr
    obtain ⟨hcd, hcdot, hce, hcE⟩ := hrest c t rfl
    have hip : (ds ++ c :: t).takeWhile Char.isDigit = ds := by
      rw [takeWhile_append_of_all _ _ _ hds,
        takeWhile_cons_of_false _ _ _ hcd, List.append_nil]
    have hr1 : (ds ++ c :: t).dropWhile Char.isDigit = c :: t := by
      rw [dropWhile_append_of_all _ _ _ hds]
      exact dropWhile_cons_of_false _ _ _ hcd
    simp only [numAfterSign, hip, hr1]
    rw [if_neg hcdot]
    simp [hne, hce, hcE, digitsVal]

theorem splitSign_minus (cs : List Char) :
    splitSign ('-' :: cs) = (true, cs) := by
  simp [splitSign]

theorem readDouble_digits (neg : Bool) (ds rest : List Char) (hne : ds ≠ [])
    (hds : ∀ c ∈ ds, c.isDigit = true)
    (hrest : ∀ c t, rest = c :: t →
      c.isDigit = false ∧ c ≠ '.' ∧ c ≠ 'e' ∧ c ≠ 'E') :
    readDouble ((if neg then ['-'] else []) ++ ds ++ rest) =
      .ok (if neg then -(digitsVal ds : ℚ) else (digitsVal ds : ℚ)) rest := by
  obtain ⟨d0, ds', rfl⟩ := List.exists_cons_of_ne_nil hne
  have hd0 : d0.isDigit = true := hds d0 (by simp)
  have hnum := numAfterSign_digits (d0 :: ds') rest hne hds hrest
  rw [List.cons_append] at hnum
  cases neg with
  | false =>
    show readDouble (d0 :: ds' ++ rest) = DRead.ok ((digitsVal (d0 :: ds') : ℚ)) rest
    unfold readDouble
    rw [List.cons_append, dropWhile_cons_of_false _ _ _ (isWsChar_of_isDigit hd0)]
    simp only [splitSign_digit d0 (ds' ++ rest) hd0, hnum]
    simp
  | true =>
    show readDouble ('-' :: (d0 :: ds' ++ rest)) =
      DRead.ok (-(digitsVal (d0 :: ds') : ℚ)) rest
    unfold readDouble
    rw [List.cons_append, dropWhile_cons_of_false _ _ _
      (by decide : isWsChar '-' = false)]
    simp only [splitSign_minus, hnum, List.cons_append]
    simp

theorem numAfterSign_digits_frac (ds fs rest : List Char) (hne : ds ≠ [])
    (hds : ∀ c ∈ ds, c.isDigit = true) (hfs : ∀ c ∈ fs, c.isDigit = true)
    (hrest : ∀ c t, rest = c :: t →
      c.isDigit = false ∧ c ≠ '.' ∧ c ≠ 'e' ∧ c ≠ 'E') :
    numAfterSign (ds ++ '.' :: (fs ++ rest)) =
      some ((digitsVal ds : ℚ) + (digitsVal fs : ℚ) / (10 : ℚ) ^ fs.length,
        rest) := by
  have hip : (ds ++ '.' :: (fs ++ rest)).takeWhile Char.isDigit = ds := by
    rw [takeWhile_append_of_all _ _ _ hds,
      takeWhile_cons_of_false _ _ _ (by decide), List.append_nil]
  have hr1 : (ds ++ '.' :: (fs ++ rest)).dropWhile Char.isDigit =
      '.' :: (fs ++ rest) := by
    rw [dropWhile_append_of_all _ _ _ hds]
    exact dropWhile_cons_of_false _ _ _ (by decide)
  have hfse : (fs ++ rest).takeWhile Char.isDigit = fs := by
    rw [takeWhile_append_of_all _ _ _ hfs]
    rcases hr : rest with _ | ⟨c, t⟩
    · simp
    · rw [takeWhile_cons_of_false _ _ _ (hrest c t hr).1, List.append_nil]
  have hfsd : (fs ++ rest).dropWhile Char.isDigit = rest := by
    rw [dropWhile_append_of_all _ _ _ hfs]
    rcases hr : rest with _ | ⟨c, t⟩
    · simp
    · exact dropWhile_cons_of_false _ _ _ (hrest c t hr).1
  rcases hr : rest with _ | ⟨c, t⟩
  · subst hr
    simp only [numAfterSign, hip, hr1, hfse, hfsd]
    simp [hne]
  · subst hr
    obtain ⟨hcd, hcdot, hce, hcE⟩ := hrest c t rfl
    simp only [numAfterSign, hip, hr1, hfse, hfsd]
    simp [hne, hce, hcE]

theorem readDouble_digits_frac (neg : Bool) (ds fs rest : List Char)
    (hne : ds ≠ [])
    (hds : ∀ c ∈ ds, c.isDigit = true) (hfs : ∀ c ∈ fs, c.isDigit = true)
    (hrest : ∀ c t, rest = c :: t →
      c.isDigit = false ∧ c ≠ '.' ∧ c ≠ 'e' ∧ c ≠ 'E') :
    readDouble ((if neg then ['-'] else []) ++ ds ++ '.' :: (fs ++ rest)) =
      .ok (if neg
        then -((digitsVal ds : ℚ) + (digitsVal fs : ℚ) / (10 : ℚ) ^ fs.length)
        else (digitsVal ds : ℚ) + (digitsVal fs : ℚ) / (10 : ℚ) ^ fs.length)
        rest := by
  obtain ⟨d0, ds', rfl⟩ := List.exists_cons_of_ne_nil hne
  have hd0 : d0.isDigit = true := hds d0 (by simp)
  have hnum := numAfterSign_digits_frac (d0 :: ds') fs rest hne hds hfs hrest
  rw [List.cons_append] at hnum
  cases neg with
  | false =>
    show readDouble (d0 :: ds' ++ '.' :: (fs ++ rest)) = _
    unfold readDouble
    rw [List.cons_append, dropWhile_cons_of_false _ _ _ (isWsChar_of_isDigit hd0)]
    simp only [splitSign_digit d0 (ds' ++ '.' :: (fs ++ rest)) hd0, hnum]
  | true =>
    show readDouble ('-' :: (d0 :: ds' ++ '.' :: (fs ++ rest))) = _
    unfold readDouble
    rw [List.cons_append, dropWhile_cons_of_false _ _ _
      (by decide : isWsChar '-' = false)]
    simp only [splitSign_minus, hnum, List.cons_append]


/-! ### Characterization of the parser -/

theorem parse_success_sound (cs : List Char) (d : animation_description_t)
    (h : from_string_adesc cs = some d) : parse_success_spec cs d := by
  rcases hint : parseIntChars cs with _ | n
  case some =>
    left
    refine ⟨n, hint, ?_⟩
    simp only [from_string_adesc, hint] at h
    injection h with h'
    exact h'.symm
  right
  simp only [from_string_adesc, hint] at h
  refine ⟨hint, ?_⟩
  rcases hrd : readDouble cs with ⟨N, r1⟩ | r | _
  case fail0 => simp [parseFormat2, hrd] at h
  case failEof => simp [parseFormat2, hrd] at h
  simp only [parseFormat2, hrd] at h
  rcases htk : readToken r1 with _ | ⟨sfx, r2⟩
  · simp [htk] at h
  simp only [htk] at h
  by_cases hsuf : sfx ≠ "ms".data ∧ sfx ≠ "s".data
  · rw [if_pos hsuf] at h
    simp at h
  rw [if_neg hsuf] at h
  have hsuf' : sfx = "ms".data ∨ sfx = "s".data := by
    by_cases h1 : sfx = "ms".data
    · exact Or.inl h1
    · by_cases h2 : sfx = "s".data
      · exact Or.inr h2
      · exact absurd ⟨h1, h2⟩ hsuf
  refine ⟨N, r1, sfx, r2, rfl, htk, hsuf', ?_⟩
  rcases het : readToken r2 with _ | ⟨e, r3⟩
  · simp only [het, finishParse] at h
    injection h with h'
    subst h'
    exact ⟨by simp, Or.inl ⟨rfl, rfl, rfl⟩⟩
  simp only [het] at h
  by_cases hreg : e ∈ registryNames
  · rw [if_pos hreg] at h
    simp only [finishParse] at h
    rcases htr : readToken r3 with _ | tk
    · simp only [htr] at h
      injection h with h'
      subst h'
      exact ⟨by simp, Or.inr (Or.inl ⟨e, r3, rfl, hreg, rfl, rfl⟩)⟩
    · simp [htr] at h
  · rw [if_neg hreg] at h
    by_cases hbez : e = "cubic-bezier".data
    · rw [if_pos hbez] at h
      subst hbez
      simp only [finishParse] at h
      rcases hp : (read4 r3).2 with _ | r4
      · simp only [hp] at h
        injection h with h'
        subst h'
        exact ⟨by simp, Or.inr (Or.inr ⟨r3, (read4 r3).1.1, (read4 r3).1.2.1,
          (read4 r3).1.2.2.1, (read4 r3).1.2.2.2, (read4 r3).2, rfl, rfl,
          by simp, by simp⟩)⟩
      · simp only [hp] at h
        rcases htr : readToken r4 with _ | tk
        · simp only [htr] at h
          injection h with h'
          subst h'
          exact ⟨by simp, Or.inr (Or.inr ⟨r3, (read4 r3).1.1, (read4 r3).1.2.1,
            (read4 r3).1.2.2.1, (read4 r3).1.2.2.2, (read4 r3).2, rfl, rfl,
            by simp, by simp⟩)⟩
        · simp [htr] at h
    · rw [if_neg hbez] at h
      simp at h

theorem parse_fail_sound (cs : List Char)
    (h : from_string_adesc cs = none) : parse_fail_spec cs := by
  rcases hint : parseIntChars cs with _ | n
  case some =>
    exfalso
    simp [from_string_adesc, hint] at h
  simp only [from_string_adesc, hint] at h
  refine ⟨hint, ?_⟩
  rcases hrd : readDouble cs with ⟨N, r1⟩ | r | _
  case fail0 => exact Or.inl (by simp)
  case failEof => exact Or.inl (by simp)
  simp only [parseFormat2, hrd] at h
  rcases htk : readToken r1 with _ | ⟨sfx, r2⟩
  · exact Or.inl (by simp [htk])
  simp only [htk] at h
  by_cases hsuf : sfx ≠ "ms".data ∧ sfx ≠ "s".data
  · exact Or.inr (Or.inl ⟨N, r1, sfx, r2, rfl, htk, hsuf.1, hsuf.2⟩)
  rw [if_neg hsuf] at h
  rcases het : readToken r2 with _ | ⟨e, r3⟩
  · exfalso
    simp [het, finishParse] at h
  simp only [het] at h
  by_cases hreg : e ∈ registryNames
  · rw [if_pos hreg] at h
    simp only [finishParse] at h
    rcases htr : readToken r3 with _ | ⟨tok, r4⟩
    · exfalso
      simp [htr] at h
    · exact Or.inr (Or.inr (Or.inr (Or.inl
        ⟨N, r1, sfx, r2, e, r3, tok, r4, rfl, htk, het, hreg, htr⟩)))
  rw [if_neg hreg] at h
  by_cases hbez : e = "cubic-bezier".data
  · rw [if_pos hbez] at h
    subst hbez
    simp only [finishParse] at h
    rcases hp : (read4 r3).2 with _ | r4
    · exfalso
      simp [hp] at h
    simp only [hp] at h
    rcases htr : readToken r4 with _ | ⟨tok, r5⟩
    · exfalso
      simp [htr] at h
    · refine Or.inr (Or.inr (Or.inr (Or.inr
        ⟨N, r1, sfx, r2, r3, (read4 r3).1, r4, tok, r5, rfl, htk, het, ?_, htr⟩)))
      rw [← hp]
  · rw [if_neg hbez] at h
    exact Or.inr (Or.inr (Or.inl ⟨N, r1, sfx, r2, e, r3, rfl, htk, het, hreg, hbez⟩))

theorem parse_fail_complete (cs : List Char)
    (h : parse_fail_spec cs) : from_string_adesc cs = none := by
  obtain ⟨hint, hcase⟩ := h
  simp only [from_string_adesc, hint]
  rcases hcase with hc | hc | hc | hc | hc
  · rcases hrd : readDouble cs with ⟨N, r1⟩ | r | _
    case fail0 => simp [parseFormat2, hrd]
    case failEof => simp [parseFormat2, hrd]
    simp only [parseFormat2, hrd]
    rcases htk : readToken r1 with _ | ⟨sfx, r2⟩
    · simp [htk]
    · exact absurd ⟨N, r1, sfx, r2, hrd, htk⟩ hc
  · obtain ⟨N, r1, sfx, r2, hrd, htk, hms, hs⟩ := hc
    simp only [parseFormat2, hrd, htk]
    rw [if_pos ⟨hms, hs⟩]
  · obtain ⟨N, r1, sfx, r2, e, r3, hrd, htk, het, hreg, hbez⟩ := hc
    simp only [parseFormat2, hrd, htk]
    by_cases hsuf : sfx ≠ "ms".data ∧ sfx ≠ "s".data
    · rw [if_pos hsuf]
    rw [if_neg hsuf]
    simp only [het]
    rw [if_neg hreg, if_neg hbez]
  · obtain ⟨N, r1, sfx, r2, e, r3, tok, r4, hrd, htk, het, hreg, htr⟩ := hc
    simp only [parseFormat2, hrd, htk]
    by_cases hsuf : sfx ≠ "ms".data ∧ sfx ≠ "s".data
    · rw [if_pos hsuf]
    rw [if_neg hsuf]
    simp only [het]
    rw [if_pos hreg]
    simp [finishParse, htr]
  · obtain ⟨N, r1, sfx, r2, r3, ps, r4, tok, r5, hrd, htk, het, hp, htr⟩ := hc
    simp only [parseFormat2, hrd, htk]
    by_cases hsuf : sfx ≠ "ms".data ∧ sfx ≠ "s".data
    · rw [if_pos hsuf]
    rw [if_neg hsuf]
    have hp2 : (read4 r3).2 = some r4 := by rw [hp]
    simp +decide [het, finishParse, hp2, htr, registryNames]

/-! ### fmt6 evaluations -/

theorem round6_zero : round6 0 = 0 := by norm_num [round6]

theorem round6_one : round6 1 = 1000000 := by norm_num [round6]

theorem round6_tenth : round6 (1 / 10) = 100000 := by norm_num [round6]

theorem round6_fifth : round6 (1 / 5) = 200000 := by norm_num [round6]

theorem fmt6_zero : fmt6 0 = "0.000000".data := by
  simp only [fmt6, round6_zero]
  decide

theorem fmt6_one : fmt6 1 = "1.000000".data := by
  simp only [fmt6, round6_one]
  decide

theorem fmt6_tenth : fmt6 (1 / 10) = "0.100000".data := by
  simp only [fmt6, round6_tenth]
  decide

theorem fmt6_fifth : fmt6 (1 / 5) = "0.200000".data := by
  simp only [fmt6, round6_fifth]
  decide

/-! ### Claim C6 (parse success postcondition) -/

/-- Claim C6, counterexample.  The claim says the four cubic-bezier
parameters default to `0, 0, 1, 1` "for any that are missing or
unreadable", so for `"5 s cubic-bezier 0.1 0.2 xyz"` the third
parameter should stay at its default `1`.  The code instead stores `0`
into `x2` (a C++11 failed conversion writes 0), producing the
canonical name `"... 0.000000 1.000000"`, not `"... 1.000000
1.000000"`. -/
theorem parse_bezier_default_counterexample :
    from_string_adesc "5 s cubic-bezier 0.1 0.2 xyz".data =
      some { length_ms := 5000,
             easing_name :=
               "cubic-bezier 0.100000 0.200000 0.000000 1.000000".data,
             easing := .bezier (1 / 10) (1 / 5) 0 1 } ∧
    "cubic-bezier 0.100000 0.200000 0.000000 1.000000".data ≠
      "cubic-bezier 0.100000 0.200000 1.000000 1.000000".data := by
  constructor
  · norm_num +decide [from_string_adesc, parseIntChars, parseFormat2, readDouble,
      readToken, isWsChar, Char.isDigit, List.dropWhile, List.takeWhile, splitSign,
      numAfterSign, digitsVal, List.foldl, digitVal_c5, digitVal_c0, digitVal_c1,
      digitVal_c2, finishParse, registryNames, truncQ, read4, canonName,
      fmt6_zero, fmt6_one, fmt6_tenth, fmt6_fifth]
  · decide

/-- Claim C6, amended: every accepted input matches the grammar — a
bare integer yields the legacy circle description; otherwise a number
plus unit "s"/"ms" (converted to milliseconds with integer
truncation), a missing easing token defaulting to "circle", a
registered easing bound by name, or "cubic-bezier" followed by up to 4
parameters read per C++11 stream semantics (`read4`): parameters
missing at end-of-input keep their defaults 0, 0, 1, 1, but a
present-yet-unreadable parameter is set to 0 and only the parameters
after it keep their defaults; the easing name is then canonicalized
via the six-decimal formatting. -/
theorem parse_success_postcondition :
    (∀ cs d, from_string_adesc cs = some d → parse_success_spec cs d) ∧
    (∀ cs v1 r1, readDouble cs = .ok v1 r1 → readDouble r1 = .failEof →
        read4 cs = ((v1, 0, 1, 1), none)) ∧
    (∀ cs v1 r1 v2 r2 r, readDouble cs = .ok v1 r1 → readDouble r1 = .ok v2 r2 →
        readDouble r2 = .fail0 r → read4 cs = ((v1, v2, 0, 1), none)) := by
  refine ⟨parse_success_sound, ?_, ?_⟩
  · intro cs v1 r1 h1 h2
    simp only [read4, h1, h2]
  · intro cs v1 r1 v2 r2 r h1 h2 h3
    simp only [read4, h1, h2, h3]

/-- Witness for `parse_success_postcondition`, instantiating the first
conjunct at `"500"` and the third at the parameter list
`"0.1 0.2 xyz"`. -/
theorem parse_success_postcondition_witness :
    parse_success_spec "500".data
      { length_ms := 500, easing_name := "circle".data,
        easing := .named "circle".data } ∧
    read4 "0.1 0.2 xyz".data = ((1 / 10, 1 / 5, 0, 1), none) := by
  constructor
  · exact parse_success_postcondition.1 "500".data _
      (by norm_num +decide [from_string_adesc, parseIntChars, digitsVal,
        List.foldl, digitVal_c0, digitVal_c5])
  · exact parse_success_postcondition.2.2 "0.1 0.2 xyz".data (1 / 10)
      " 0.2 xyz".data (1 / 5) " xyz".data "xyz".data
      (by norm_num +decide [readDouble, isWsChar, Char.isDigit, List.dropWhile,
        List.takeWhile, splitSign, numAfterSign, digitsVal, List.foldl,
        digitVal_c0, digitVal_c1])
      (by norm_num +decide [readDouble, isWsChar, Char.isDigit, List.dropWhile,
        List.takeWhile, splitSign, numAfterSign, digitsVal, List.foldl,
        digitVal_c0, digitVal_c2])
      (by norm_num +decide [readDouble, isWsChar, Char.isDigit, List.dropWhile,
        List.takeWhile, splitSign, numAfterSign, digitsVal, List.foldl])

/-! ### Claim C7 (parse failure characterization) -/

/-- Claim C7, counterexample.  The claim says any trailing unconsumed
non-whitespace content after an otherwise successful parse makes the
parse fail.  For `"5 s cubic-bezier x"` the token `"x"` is never
consumed into any value, yet the parse succeeds: the failed first
parameter read kills the stream, so the trailing-data check
(`stream >> tmp`) cannot fire. -/
theorem parse_trailing_garbage_accepted :
    from_string_adesc "5 s cubic-bezier x".data =
      some { length_ms := 5000,
             easing_name :=
               "cubic-bezier 0.000000 0.000000 1.000000 1.000000".data,
             easing := .bezier 0 0 1 1 } := by
  norm_num +decide [from_string_adesc, parseIntChars, parseFormat2, readDouble,
    readToken, isWsChar, Char.isDigit, List.dropWhile, List.takeWhile, splitSign,
    numAfterSign, digitsVal, List.foldl, digitVal_c5, finishParse, registryNames,
    truncQ, read4, canonName, fmt6_zero, fmt6_one]

/-- Claim C7, amended: parse fails exactly when the input is not a
bare integer and (the number+unit pair cannot be read, or the unit is
neither "s" nor "ms", or the easing token is neither registered nor
"cubic-bezier", or non-whitespace content remains after a registered
easing, or non-whitespace content remains after a cubic-bezier whose
four parameter reads all succeeded) — when a cubic-bezier parameter
read fails, the dead stream masks the trailing-data check and trailing
content is accepted.  The four claimed failing inputs all fail. -/
theorem parse_failure_characterization :
    (∀ cs, from_string_adesc cs = none ↔ parse_fail_spec cs) ∧
    from_string_adesc "abc".data = none ∧
    from_string_adesc "5 x".data = none ∧
    from_string_adesc "5 s unknown-easing".data = none ∧
    from_string_adesc "5 s cubic-bezier 0.1 0.2 0.3 0.4 extra".data = none := by
  refine ⟨fun cs => ⟨parse_fail_sound cs, parse_fail_complete cs⟩, ?_, ?_, ?_, ?_⟩
  · norm_num +decide [from_string_adesc, parseIntChars, parseFormat2, readDouble,
      readToken, isWsChar, Char.isDigit, List.dropWhile, List.takeWhile, splitSign,
      numAfterSign, digitsVal, List.foldl]
  · norm_num +decide [from_string_adesc, parseIntChars, parseFormat2, readDouble,
      readToken, isWsChar, Char.isDigit, List.dropWhile, List.takeWhile, splitSign,
      numAfterSign, digitsVal, List.foldl, digitVal_c5]
  · norm_num +decide [from_string_adesc, parseIntChars, parseFormat2, readDouble,
      readToken, isWsChar, Char.isDigit, List.dropWhile, List.takeWhile, splitSign,
      numAfterSign, digitsVal, List.foldl, digitVal_c5, registryNames]
  · norm_num +decide [from_string_adesc, parseIntChars, parseFormat2, readDouble,
      readToken, isWsChar, Char.isDigit, List.dropWhile, List.takeWhile, splitSign,
      numAfterSign, digitsVal, List.foldl, digitVal_c0, digitVal_c1, digitVal_c2,
      digitVal_c3, digitVal_c4, digitVal_c5, registryNames, read4, finishParse]

/-! ### Round-trip lemmas -/

theorem parseIntChars_serialize_none (L : Int) (rest : List Char) :
    parseIntChars (intChars L ++ 'm' :: rest) = none := by
  have hall : ∀ xs : List Char, (xs ++ 'm' :: rest).all Char.isDigit = false := by
    intro xs
    rw [Bool.eq_false_iff]
    intro hc
    have := List.all_eq_true.mp hc 'm' (by simp)
    simp at this
  unfold intChars
  by_cases hL : L < 0
  · rw [if_pos hL, List.singleton_append, List.cons_append]
    unfold parseIntChars
    split
    next h => cases h
    next c cs h =>
      injection h with h1 h2
      subst h1; subst h2
      rw [if_pos rfl, if_neg]
      rintro ⟨-, hd⟩
      rw [hall (natChars L.natAbs)] at hd
      cases hd
  · rw [if_neg hL, List.nil_append]
    obtain ⟨c, cs, hc⟩ := List.exists_cons_of_ne_nil (natChars_ne_nil L.natAbs)
    have hcd : c.isDigit = true := by
      have := natChars_all_digits L.natAbs
      rw [hc] at this
      exact (List.all_eq_true.mp this c (by simp [hc]))
    rw [hc, List.cons_append]
    unfold parseIntChars
    split
    next h => cases h
    next c' cs' h =>
      injection h with h1 h2
      subst h1; subst h2
      rw [if_neg (ne_of_isDigit hcd (by decide)),
        if_neg (ne_of_isDigit hcd (by decide)), if_neg]
      rw [← List.cons_append, ← hc]
      intro hd
      rw [hall (natChars L.natAbs)] at hd
      cases hd

theorem readDouble_intChars (L : Int) (c : Char) (t : List Char)
    (hc : c.isDigit = false ∧ c ≠ '.' ∧ c ≠ 'e' ∧ c ≠ 'E') :
    readDouble (intChars L ++ c :: t) = .ok (L : ℚ) (c :: t) := by
  have hds := natChars_all_digits L.natAbs
  have hne := natChars_ne_nil L.natAbs
  have hall : ∀ x ∈ natChars L.natAbs, x.isDigit = true :=
    fun x hx => List.all_eq_true.mp hds x hx
  have hrest : ∀ c' t', (c :: t : List Char) = c' :: t' →
      c'.isDigit = false ∧ c' ≠ '.' ∧ c' ≠ 'e' ∧ c' ≠ 'E' := by
    intro c' t' he
    injection he with h1 h2
    subst h1; subst h2
    exact hc
  unfold intChars
  by_cases hL : L < 0
  · rw [if_pos hL]
    have h := readDouble_digits true (natChars L.natAbs) (c :: t) hne hall hrest
    simp only [ite_true] at h
    rw [List.singleton_append] at h ⊢
    rw [h]
    congr 1
    rw [digitsVal_natChars, Int.cast_natAbs, abs_of_neg hL]
    push_cast
    ring
  · rw [if_neg hL, List.nil_append]
    have h := readDouble_digits false (natChars L.natAbs) (c :: t) hne hall hrest
    simp only [Bool.false_eq_true, if_false, List.nil_append] at h
    rw [h]
    congr 1
    rw [digitsVal_natChars, Int.cast_natAbs, abs_of_nonneg (not_lt.mp hL)]

theorem truncQ_intCast (L : Int) : truncQ (L : ℚ) = L := by
  unfold truncQ
  split_ifs
  · exact Int.ceil_intCast L
  · exact Int.floor_intCast L

theorem floor_intCast_add_half (z : Int) : ⌊(z : ℚ) + 1 / 2⌋ = z := by
  rw [add_comm, Int.floor_add_int]
  norm_num

theorem round6_intCast_div (z : Int) : round6 ((z : ℚ) / 1000000) = z := by
  unfold round6
  by_cases hz : 0 ≤ z
  · have h0 : (0 : ℚ) ≤ (z : ℚ) / 1000000 :=
      div_nonneg (by exact_mod_cast hz) (by norm_num)
    rw [if_pos h0, div_mul_cancel₀ _ (by norm_num : (1000000 : ℚ) ≠ 0),
      floor_intCast_add_half]
  · have hzq : (z : ℚ) < 0 := by exact_mod_cast not_le.mp hz
    rw [if_neg (not_le.mpr (div_neg_of_neg_of_pos hzq (by norm_num)))]
    have he : -((z : ℚ) / 1000000) * 1000000 = ((-z : ℤ) : ℚ) := by
      push_cast
      field_simp
    rw [he, floor_intCast_add_half]
    omega

theorem round6_r6rat (q : ℚ) : round6 (r6rat q) = round6 q := by
  unfold r6rat
  exact round6_intCast_div _

theorem fmt6_r6rat (q : ℚ) : fmt6 (r6rat q) = fmt6 q := by
  unfold fmt6
  rw [round6_r6rat]

theorem readDouble_fmt6 (q : ℚ) (rest : List Char)
    (hrest : rest = [] ∨ ∃ t, rest = ' ' :: t) :
    readDouble (fmt6 q ++ rest) = .ok (r6rat q) rest := by
  have hrest' : ∀ c t, rest = c :: t →
      c.isDigit = false ∧ c ≠ '.' ∧ c ≠ 'e' ∧ c ≠ 'E' := by
    intro c t he
    rcases hrest with rfl | ⟨t', rfl⟩
    · cases he
    · injection he with h1 h2
      subst h1
      refine ⟨by decide, by decide, by decide, by decide⟩
  have hallN : ∀ x ∈ natChars ((round6 q).natAbs / 1000000), x.isDigit = true :=
    fun x hx => List.all_eq_true.mp (natChars_all_digits _) x hx
  have hallP : ∀ x ∈ natCharsPad 6 ((round6 q).natAbs % 1000000),
      x.isDigit = true :=
    fun x hx => List.all_eq_true.mp (natCharsPad_all_digits _ _) x hx
  have hb : (round6 q).natAbs % 1000000 < 10 ^ 6 := by
    have h10 : (1000000 : Nat) = 10 ^ 6 := by norm_num
    rw [← h10]
    exact Nat.mod_lt _ (by norm_num)
  have hvalP : digitsVal (natCharsPad 6 ((round6 q).natAbs % 1000000)) =
      (round6 q).natAbs % 1000000 := by
    rw [digitsVal_natCharsPad, Nat.mod_eq_of_lt hb]
  have hlenP : (natCharsPad 6 ((round6 q).natAbs % 1000000)).length = 6 :=
    natCharsPad_length 6 _
  have hsum : (((round6 q).natAbs / 1000000 : ℕ) : ℚ) +
      (((round6 q).natAbs % 1000000 : ℕ) : ℚ) / (10 : ℚ) ^ 6 =
      ((round6 q).natAbs : ℚ) / 1000000 := by
    have hdm : 1000000 * ((round6 q).natAbs / 1000000) +
        (round6 q).natAbs % 1000000 = (round6 q).natAbs :=
      Nat.div_add_mod _ _
    have hcast : ((round6 q).natAbs : ℚ) =
        1000000 * (((round6 q).natAbs / 1000000 : ℕ) : ℚ) +
          (((round6 q).natAbs % 1000000 : ℕ) : ℚ) := by
      exact_mod_cast congrArg (Nat.cast : Nat → ℚ) hdm.symm
    have h6 : (10 : ℚ) ^ 6 = 1000000 := by norm_num
    rw [hcast, h6]
    field_simp
    ring
  have hfmt : fmt6 q = (if round6 q < 0 then ['-'] else []) ++
      natChars ((round6 q).natAbs / 1000000) ++
      '.' :: natCharsPad 6 ((round6 q).natAbs % 1000000) := rfl
  have hr6 : r6rat q = ((round6 q : ℚ)) / 1000000 := rfl
  rw [hfmt, hr6]
  by_cases hz : round6 q < 0
  · rw [if_pos hz]
    have h := readDouble_digits_frac true (natChars ((round6 q).natAbs / 1000000))
      (natCharsPad 6 ((round6 q).natAbs % 1000000)) rest (natChars_ne_nil _)
      hallN hallP hrest'
    simp only [ite_true, List.singleton_append, List.append_assoc,
      List.cons_append, List.nil_append] at h ⊢
    rw [h]
    congr 1
    rw [digitsVal_natChars, hlenP, hvalP, hsum, Int.cast_natAbs, abs_of_neg hz]
    push_cast
    ring
  · rw [if_neg hz]
    have h := readDouble_digits_frac false (natChars ((round6 q).natAbs / 1000000))
      (natCharsPad 6 ((round6 q).natAbs % 1000000)) rest (natChars_ne_nil _)
      hallN hallP hrest'
    simp only [Bool.false_eq_true, if_false, List.nil_append,
      List.append_assoc, List.cons_append] at h ⊢
    rw [h]
    congr 1
    rw [digitsVal_natChars, hlenP, hvalP, hsum, Int.cast_natAbs,
      abs_of_nonneg (not_lt.mp hz)]

theorem readToken_nil : readToken [] = none := rfl

theorem reparse_token_name (L : Int) (name : List Char) (hne : name ≠ [])
    (hnws : ∀ c ∈ name, isWsChar c = false) (hreg : name ∈ registryNames) :
    from_string_adesc (intChars L ++ 'm' :: 's' :: ' ' :: name) =
      some { length_ms := L, easing_name := name, easing := .named name } := by
  have hint := parseIntChars_serialize_none L ('s' :: ' ' :: name)
  have hrd := readDouble_intChars L 'm' ('s' :: ' ' :: name)
    ⟨by decide, by decide, by decide, by decide⟩
  have htk : readToken ('m' :: 's' :: ' ' :: name) =
      some ("ms".data, ' ' :: name) := by
    have := readToken_exact "ms".data (' ' :: name) (by decide)
      (by decide) (Or.inr ⟨name, rfl⟩)
    simpa using this
  have htk2 : readToken (' ' :: name) = some (name, []) := by
    rw [readToken_cons_ws ' ' name (by decide)]
    have := readToken_exact name [] hne hnws (Or.inl rfl)
    simpa using this
  simp only [from_string_adesc, hint, parseFormat2, hrd, htk]
  rw [if_neg (by simp)]
  simp only [htk2]
  rw [if_pos hreg]
  simp only [finishParse, readToken_nil]
  rw [if_neg (by decide : ¬("ms".data = "s".data))]
  rw [truncQ_intCast]

theorem reparse_bezier (L : Int) (v1 v2 v3 v4 : ℚ) :
    from_string_adesc (intChars L ++ 'm' :: 's' :: ' ' :: canonName v1 v2 v3 v4) =
      some { length_ms := L, easing_name := canonName v1 v2 v3 v4,
             easing := .bezier (r6rat v1) (r6rat v2) (r6rat v3) (r6rat v4) } := by
  have hshape : canonName v1 v2 v3 v4 = "cubic-bezier".data ++
      ' ' :: (fmt6 v1 ++ ' ' :: (fmt6 v2 ++ ' ' :: (fmt6 v3 ++ ' ' :: fmt6 v4))) := by
    have hsplit : "cubic-bezier ".data = "cubic-bezier".data ++ [' '] := rfl
    simp only [canonName, hsplit, List.append_assoc, List.singleton_append,
      List.cons_append]
    rfl
  have hint := parseIntChars_serialize_none L
    ('s' :: ' ' :: canonName v1 v2 v3 v4)
  have hrd := readDouble_intChars L 'm' ('s' :: ' ' :: canonName v1 v2 v3 v4)
    ⟨by decide, by decide, by decide, by decide⟩
  have htk : readToken ('m' :: 's' :: ' ' :: canonName v1 v2 v3 v4) =
      some ("ms".data, ' ' :: canonName v1 v2 v3 v4) := by
    have := readToken_exact "ms".data (' ' :: canonName v1 v2 v3 v4) (by decide)
      (by decide) (Or.inr ⟨canonName v1 v2 v3 v4, rfl⟩)
    simpa using this
  have htk2 : readToken (' ' :: canonName v1 v2 v3 v4) =
      some ("cubic-bezier".data,
        ' ' :: (fmt6 v1 ++ ' ' :: (fmt6 v2 ++ ' ' :: (fmt6 v3 ++ ' ' :: fmt6 v4)))) := by
    rw [readToken_cons_ws ' ' _ (by decide), hshape]
    exact readToken_exact "cubic-bezier".data _ (by decide) (by decide)
      (Or.inr ⟨_, rfl⟩)
  have hd1 : readDouble
      (' ' :: (fmt6 v1 ++ ' ' :: (fmt6 v2 ++ ' ' :: (fmt6 v3 ++ ' ' :: fmt6 v4)))) =
      .ok (r6rat v1) (' ' :: (fmt6 v2 ++ ' ' :: (fmt6 v3 ++ ' ' :: fmt6 v4))) := by
    rw [readDouble_cons_ws ' ' _ (by decide)]
    exact readDouble_fmt6 v1 _ (Or.inr ⟨_, rfl⟩)
  have hd2 : readDouble (' ' :: (fmt6 v2 ++ ' ' :: (fmt6 v3 ++ ' ' :: fmt6 v4))) =
      .ok (r6rat v2) (' ' :: (fmt6 v3 ++ ' ' :: fmt6 v4)) := by
    rw [readDouble_cons_ws ' ' _ (by decide)]
    exact readDouble_fmt6 v2 _ (Or.inr ⟨_, rfl⟩)
  have hd3 : readDouble (' ' :: (fmt6 v3 ++ ' ' :: fmt6 v4)) =
      .ok (r6rat v3) (' ' :: fmt6 v4) := by
    rw [readDouble_cons_ws ' ' _ (by decide)]
    exact readDouble_fmt6 v3 _ (Or.inr ⟨_, rfl⟩)
  have hd4 : readDouble (' ' :: fmt6 v4) = .ok (r6rat v4) [] := by
    rw [readDouble_cons_ws ' ' _ (by decide)]
    have := readDouble_fmt6 v4 [] (Or.inl rfl)
    simpa using this
  have hread4 : read4
      (' ' :: (fmt6 v1 ++ ' ' :: (fmt6 v2 ++ ' ' :: (fmt6 v3 ++ ' ' :: fmt6 v4)))) =
      ((r6rat v1, r6rat v2, r6rat v3, r6rat v4), some []) := by
    simp only [read4, hd1, hd2, hd3, hd4]
  have hcanon : canonName (r6rat v1) (r6rat v2) (r6rat v3) (r6rat v4) =
      canonName v1 v2 v3 v4 := by
    unfold canonName
    rw [fmt6_r6rat, fmt6_r6rat, fmt6_r6rat, fmt6_r6rat]
  simp only [from_string_adesc, hint, parseFormat2, hrd, htk]
  rw [if_neg (by simp)]
  simp only [htk2]
  rw [if_neg (by decide : ¬(("cubic-bezier".data : List Char) ∈ registryNames)),
    if_pos trivial]
  simp only [hread4, finishParse, readToken_nil, hcanon]
  rw [if_neg (by decide : ¬(("ms".data : List Char) = "s".data))]
  rw [truncQ_intCast]

theorem adesc_beq_same (L : Int) (nm : List Char) (e1 e2 : easing_kind) :
    adesc_beq { length_ms := L, easing_name := nm, easing := e1 }
      { length_ms := L, easing_name := nm, easing := e2 } = true := by
  unfold adesc_beq
  rw [if_pos rfl]
  simp

theorem adesc_beq_of_name_len (a b : animation_description_t)
    (hn : a.easing_name = b.easing_name) (hl : a.length_ms = b.length_ms) :
    adesc_beq a b = true := by
  unfold adesc_beq
  rw [if_pos hn, hl]
  simp

/-- Claim C2: for every description produced by the parser,
serializing and re-parsing succeeds and yields a description equal to
the original under `operator==`. -/
theorem parse_round_trip (cs : List Char) (d : animation_description_t)
    (h : from_string_adesc cs = some d) :
    ∃ d', from_string_adesc (to_string_adesc d) = some d' ∧
      adesc_beq d' d = true := by
  have hspec := parse_success_sound cs d h
  have hser : to_string_adesc d =
      intChars d.length_ms ++ 'm' :: 's' :: ' ' :: d.easing_name := by
    unfold to_string_adesc
    rw [List.append_assoc]
    rfl
  rcases hspec with ⟨n, hint, rfl⟩ |
    ⟨hint, N, r1, sfx, r2, hrd, htk, hsuf, hlen, hcase⟩
  · refine ⟨{ length_ms := n, easing_name := "circle".data,
              easing := .named "circle".data }, ?_, ?_⟩
    · rw [hser]
      exact reparse_token_name n "circle".data (by decide) (by decide) (by decide)
    · exact adesc_beq_of_name_len _ _ rfl rfl
  rcases hcase with ⟨het, hname, heas⟩ | ⟨e, r3, het, hreg, hname, heas⟩ |
    ⟨r3, v1, v2, v3, v4, st, het, hr4, hname, heas⟩
  · refine ⟨{ length_ms := d.length_ms, easing_name := "circle".data,
              easing := .named "circle".data }, ?_, ?_⟩
    · rw [hser, hname]
      exact reparse_token_name d.length_ms "circle".data (by decide)
        (by decide) (by decide)
    · exact adesc_beq_of_name_len _ _ hname.symm rfl
  · have he_cases : e = "linear".data ∨ e = "circle".data ∨
        e = "sigmoid".data ∨ e = "easeOutElastic".data := by
      simpa [registryNames] using hreg
    have hne : e ≠ [] := by
      rcases he_cases with rfl | rfl | rfl | rfl <;> decide
    have hnws : ∀ c ∈ e, isWsChar c = false := by
      rcases he_cases with rfl | rfl | rfl | rfl <;> decide
    refine ⟨{ length_ms := d.length_ms, easing_name := e, easing := .named e },
      ?_, ?_⟩
    · rw [hser, hname]
      exact reparse_token_name d.length_ms e hne hnws hreg
    · exact adesc_beq_of_name_len _ _ hname.symm rfl
  · refine ⟨{ length_ms := d.length_ms, easing_name := canonName v1 v2 v3 v4,
              easing := .bezier (r6rat v1) (r6rat v2) (r6rat v3) (r6rat v4) },
      ?_, ?_⟩
    · rw [hser, hname]
      exact reparse_bezier d.length_ms v1 v2 v3 v4
    · exact adesc_beq_of_name_len _ _ hname.symm rfl

/-- Witness for `parse_round_trip` at the parsed input `"500"`. -/
theorem parse_round_trip_witness :
    ∃ d', from_string_adesc (to_string_adesc
        { length_ms := 500, easing_name := "circle".data,
          easing := .named "circle".data }) = some d' ∧
      adesc_beq d' { length_ms := 500, easing_name := "circle".data,
                     easing := .named "circle".data } = true :=
  parse_round_trip "500".data _
    (by norm_num +decide [from_string_adesc, parseIntChars, digitsVal,
      List.foldl, digitVal_c0, digitVal_c5])
